import Mathlib

/-!
Verification of the Banksia tournament core (`src/game/tourmng.cpp`,
`src/game/game.cpp`) against its natural-language specification.

The C++ data model and operations are shallowly embedded as executable Lean
definitions.  C++ `int` counters become `Int`; container sizes become `Nat`.
External collaborators that the core only consumes (the `Board` rules module,
the engine `Player` adapter, the opening-book and PRNG) are passed in as
explicit oracle parameters, so every theorem quantifies over their behaviour.
A few declarations that live in headers or files outside the two translated
sources are modelled from the specification; each such definition carries a
doc comment starting with `Modelled from the spec:`.
-/

namespace Banksia

/-- Side ordinal, `{White = 0, Black = 1}`. -/
inductive Side where
  | white
  | black
deriving DecidableEq, Repr

/-- The `BoardCore::getXSide`: the opposite side. -/
def xSide : Side → Side
  | .white => .black
  | .black => .white

/-- The `ResultType` from chess.h (declaration outside src/); values as used by
tourmng.cpp and listed in the spec data model. -/
inductive ResultType where
  | noresult
  | win
  | draw
  | loss
deriving DecidableEq, Repr

/-- The `ReasonType`; the reasons listed in the spec data model. -/
inductive ReasonType where
  | noreason
  | mate
  | stalemate
  | repetition
  | resign
  | fiftymoves
  | insufficientmaterial
  | illegalmove
  | timeout
  | crash
  | adjudication
  | tablebase
deriving DecidableEq, Repr

/-- The `Result`: kind plus informational reason. -/
structure Result where
  result : ResultType := .noresult
  reason : ReasonType := .noreason
deriving DecidableEq, Repr

/-- The `MatchState` of a match record: `none → playing → completed | error`. -/
inductive MatchState where
  | none
  | playing
  | completed
  | error
deriving DecidableEq, Repr

/-- Tournament type. -/
inductive TourType where
  | roundrobin
  | knockout
  | none
deriving DecidableEq, Repr

/-- Modelled from the spec: `Move = {from, to, promotion}` (chess.h is outside
src/).  The C++ field `from` is renamed `origin` (`from` is a Lean keyword);
`dest` is the `to` square, `promotion` the promoted piece kind. -/
structure Move where
  origin : Nat
  dest : Nat
  promotion : Nat
deriving DecidableEq, Repr

/-- Modelled from the spec: `Move::illegalMove`, a sentinel denoting "no move";
it is outside the 0..63 square range so it never equals a real board move. -/
def Move.illegalMove : Move := ⟨64, 64, 0⟩

/-- The `MatchRecord` (fields per tourmng.h declaration, shapes visible in
tourmng.cpp usage): `playernames[0]`/`playernames[1]` become
`playerW`/`playerB`. -/
structure MatchRecord where
  playerW : String := ""
  playerB : String := ""
  startFen : String := ""
  startMoves : List Move := []
  resultType : ResultType := .noresult
  state : MatchState := .none
  gameIdx : Int := -1
  round : Int := 0
  pairId : Int := -1
deriving DecidableEq, Repr

/-- The `MatchRecord::isValid`: both player names non-empty. -/
def MatchRecord.isValid (r : MatchRecord) : Bool :=
  !(r.playerW.isEmpty) && !(r.playerB.isEmpty)

/-- Modelled from the spec: `MatchRecord::swapPlayers` (declared in tourmng.h,
outside src/) swaps the two colours of the pairing. -/
def MatchRecord.swapPlayers (r : MatchRecord) : MatchRecord :=
  { r with playerW := r.playerB, playerB := r.playerW }

/-- The `TourPlayer` (per tourmng.h declaration; fields visible in tourmng.cpp):
per-player standings counters, all C++ `int`. -/
structure TourPlayer where
  name : String := ""
  elo : Int := 0
  gameCnt : Int := 0
  winCnt : Int := 0
  drawCnt : Int := 0
  lossCnt : Int := 0
  whiteCnt : Int := 0
deriving DecidableEq, Repr

/-- The `TourPlayer::isValid`: non-empty name, non-negative counters, and
`gameCnt = winCnt + drawCnt + lossCnt`. -/
def TourPlayer.isValid (p : TourPlayer) : Bool :=
  !(p.name.isEmpty)
  && decide (0 ≤ p.gameCnt) && decide (0 ≤ p.winCnt)
  && decide (0 ≤ p.drawCnt) && decide (0 ≤ p.lossCnt)
  && decide (p.gameCnt = p.winCnt + p.drawCnt + p.lossCnt)

/-- The `TourPlayer::smaller` (tourmng.cpp:128-131), the standings comparator:
fewer wins, or equal wins and more losses, or equal wins and losses and
fewer draws. -/
def TourPlayer.smaller (p other : TourPlayer) : Prop :=
  p.winCnt < other.winCnt
  ∨ (p.winCnt = other.winCnt
     ∧ (other.lossCnt < p.lossCnt
        ∨ (p.lossCnt = other.lossCnt ∧ p.drawCnt < other.drawCnt)))

instance : DecidableRel TourPlayer.smaller := fun p q => by
  unfold TourPlayer.smaller
  infer_instance

/-!
## C2 — the bounded-concurrency scheduler loop (`TourMng::playMatches`)

`createMatch` (tourmng.cpp:940-983) either promotes a record to `playing` and
appends one live `Game` to `gameList`, or sets the record to `error` (engine
creation failed / record invalid) and adds no game.  Which of the two happens
depends on the external engine pool, abstracted as the oracle `ok`.
`createNextRoundMatches` only appends fresh records (knockout) and never
creates a live game, so it is abstracted as a pure function on the record
list. -/

/-- The promotion loop of `TourMng::playMatches` (tourmng.cpp:618-629): walk
the records in order; skip records whose state is not `none`; otherwise run
`createMatch` (promoting to `playing` and adding a game if `ok`, else marking
`error`), and break as soon as `gameConcurrency` live games is reached.
Returns the updated record list and live-game count. -/
def playMatchesLoop (ok : MatchRecord → Bool) (conc : Nat) :
    List MatchRecord → Nat → List MatchRecord × Nat
  | [], games => ([], games)
  | m :: rest, games =>
    if m.state ≠ MatchState.none then
      let (rs, g) := playMatchesLoop ok conc rest games
      (m :: rs, g)
    else
      let good := ok m
      let m' := { m with state := if good then .playing else .error }
      let games' := if good then games + 1 else games
      if conc ≤ games' then
        (m' :: rest, games')
      else
        let (rs, g) := playMatchesLoop ok conc rest games'
        (m' :: rs, g)

/-- The `TourMng::playMatches` (tourmng.cpp:608-634).  `nextRound` abstracts
`createNextRoundMatches`, which only rewrites the record list (it can add
knockout records but never a live game); `none` models its `false` return,
upon which the tournament finishes. -/
def playMatches (ok : MatchRecord → Bool)
    (nextRound : List MatchRecord → Option (List MatchRecord))
    (conc : Nat) (records : List MatchRecord) (games : Nat) :
    List MatchRecord × Nat :=
  if records.isEmpty then (records, games)
  else if conc ≤ games then (records, games)
  else
    let (rs, g) := playMatchesLoop ok conc records games
    if g = 0 then
      match nextRound rs with
      | some rs2 => (rs2, g)
      | none => (rs, g)
    else (rs, g)

/-- One scheduler tick (`TourMng::tickWork`, tourmng.cpp:411-454) as far as
the live-game count is concerned: `reaped` games that reached `ended` are
removed and their players returned, then `playMatches` runs. -/
def tickWorkGames (ok : MatchRecord → Bool)
    (nextRound : List MatchRecord → Option (List MatchRecord))
    (conc : Nat) (records : List MatchRecord) (games reaped : Nat) :
    List MatchRecord × Nat :=
  playMatches ok nextRound conc records (games - reaped)

lemma playMatchesLoop_le (ok : MatchRecord → Bool) (conc : Nat) :
    ∀ (records : List MatchRecord) (games : Nat), games < conc →
      (playMatchesLoop ok conc records games).2 ≤ conc := by
  intro records
  induction records with
  | nil => intro games h; simpa [playMatchesLoop] using Nat.le_of_lt h
  | cons m rest ih =>
    intro games h
    by_cases hs : m.state ≠ MatchState.none
    · simpa [playMatchesLoop, hs] using ih games h
    · simp only [playMatchesLoop, hs, if_false, reduceIte]
      by_cases hg : ok m
      · by_cases hc : conc ≤ games + 1
        · simp only [hg, hc, if_true, reduceIte]
          omega
        · have h2 : games + 1 < conc := Nat.lt_of_not_le hc
          simpa [hg, hc] using ih (games + 1) h2
      · have hc : ¬ conc ≤ games := Nat.not_le_of_lt h
        simpa [hg, hc] using ih games h

/-- C2: for every schedule, every oracle for engine creation, every
round-advance behaviour and every concurrency limit `conc ≥ 1`: if before the
tick the number of live games is at most `conc`, then after the tick it is
still at most `conc`.  The promotion loop starts only while the count is
below the limit and stops as soon as the limit is reached. -/
theorem playMatches_concurrency_bound (ok : MatchRecord → Bool)
    (nextRound : List MatchRecord → Option (List MatchRecord))
    (conc : Nat) (records : List MatchRecord) (games reaped : Nat)
    (hconc : 1 ≤ conc) (hinv : games ≤ conc) :
    (tickWorkGames ok nextRound conc records games reaped).2 ≤ conc := by
  unfold tickWorkGames playMatches
  by_cases hemp : records.isEmpty
  · simpa [hemp] using Nat.le_trans (Nat.sub_le games reaped) hinv
  · by_cases hfull : conc ≤ games - reaped
    · simp only [hemp, if_false, hfull, if_true, reduceIte]
      exact Nat.le_antisymm (Nat.le_trans (Nat.sub_le games reaped) hinv) hfull ▸ le_refl conc
    · have hlt : games - reaped < conc := Nat.lt_of_not_le hfull
      have hle := playMatchesLoop_le ok conc records (games - reaped) hlt
      simp only [hemp, if_false, hfull, reduceIte]
      rcases hzero : (playMatchesLoop ok conc records (games - reaped)) with ⟨rs, g⟩
      rcases hzero2 : g with _ | g2
      · rcases hnr : nextRound rs with _ | rs2 <;> simp_all
      · simp_all

/-- Witness for C2 at a concrete schedule: two `none` records, concurrency 1,
no live games; after the tick exactly one game runs, within the bound. -/
theorem playMatches_concurrency_bound_witness :
    1 ≤ 1 ∧ (0 : Nat) ≤ 1 ∧
      (tickWorkGames (fun _ => true) (fun _ => Option.none) 1
        [{ playerW := "A", playerB := "B" }, { playerW := "B", playerB := "A" }]
        0 0).2 ≤ 1 :=
  ⟨by decide, by decide,
    playMatches_concurrency_bound (fun _ => true) (fun _ => Option.none) 1
      [{ playerW := "A", playerB := "B" }, { playerW := "B", playerB := "A" }]
      0 0 (by decide) (by decide)⟩

/-!
## C9 — the packed 24-bit move encoding of the schedule file

`MatchRecord::saveToJson` (tourmng.cpp:96-104) packs each opening move as
`dest | from << 8 | promotion << 16`; `MatchRecord::load` (tourmng.cpp:62-70)
unpacks `k` into a move built from `k & 0xff`, `k >> 8 & 0xff` and
`k >> 16 & 0xff`. -/

/-- The packing of `MatchRecord::saveToJson`:
`k = m.dest | m.from << 8 | promotion << 16`. -/
def movePack (m : Move) : Nat :=
  m.dest ||| (m.origin <<< 8) ||| (m.promotion <<< 16)

/-- Modelled from the spec: the unpacking of `MatchRecord::load` feeds
`k & 0xff`, `k >> 8 & 0xff` and `k >> 16 & 0xff` to a `Move` constructor
declared outside src/; per the spec the encoding is
`to | from << 8 | promotion << 16`, so the low byte is the destination, the
middle byte the origin and the high byte the promotion. -/
def moveUnpack (k : Nat) : Move :=
  { origin := (k >>> 8) &&& 0xff, dest := k &&& 0xff, promotion := (k >>> 16) &&& 0xff }

/-- C9: the move packing round-trips on every 24-bit value: unpacking `k` and
packing the resulting move yields `k` again. -/
theorem movePack_moveUnpack (k : Nat) (hk : k < 2 ^ 24) :
    movePack (moveUnpack k) = k := by
  unfold movePack moveUnpack
  refine Nat.eq_of_testBit_eq fun i => ?_
  have h255 : (0xff : Nat) = 2 ^ 8 - 1 := by norm_num
  simp only [h255, Nat.testBit_or, Nat.testBit_and, Nat.testBit_shiftLeft,
    Nat.testBit_shiftRight, Nat.testBit_two_pow_sub_one]
  by_cases h8 : i < 8
  · have hn8 : ¬ (8 : Nat) ≤ i := by omega
    have hn16 : ¬ (16 : Nat) ≤ i := by omega
    simp [h8, hn8, hn16]
  · by_cases h16 : i < 16
    · have hge : (8 : Nat) ≤ i := by omega
      have h1 : ¬ i < 8 := h8
      have h2 : i - 8 < 8 := by omega
      have h3 : ¬ (16 : Nat) ≤ i := by omega
      have h4 : 8 + (i - 8) = i := by omega
      simp [hge, h1, h2, h3, h4, ge_iff_le]
    · by_cases h24 : i < 24
      · have hge : (16 : Nat) ≤ i := by omega
        have h1 : ¬ i < 8 := h8
        have h2 : ¬ i - 8 < 8 := by omega
        have h3 : i - 16 < 8 := by omega
        have h4 : 16 + (i - 16) = i := by omega
        have h5 : (8 : Nat) ≤ i := by omega
        simp [hge, h1, h2, h3, h4, h5, ge_iff_le]
      · have hbig : Nat.testBit k i = false := by
          refine Nat.testBit_lt_two_pow (Nat.lt_of_lt_of_le hk ?_)
          exact Nat.pow_le_pow_right (by omega) (by omega)
        have h1 : ¬ i < 8 := h8
        have h2 : ¬ i - 8 < 8 := by omega
        have h3 : ¬ i - 16 < 8 := by omega
        simp [hbig, h1, h2, h3]

/-- Witness for C9 at `k = 0xABCDEF`. -/
theorem movePack_moveUnpack_witness :
    (0xABCDEF : Nat) < 2 ^ 24 ∧ movePack (moveUnpack 0xABCDEF) = 0xABCDEF :=
  ⟨by norm_num, movePack_moveUnpack 0xABCDEF (by norm_num)⟩

/-!
## C3 — resuming a schedule never yields a `playing` record

`MatchRecord::load` (tourmng.cpp:52-81) derives the state of a loaded record
purely from the stored result string: `completed` when the result is decided,
`none` otherwise — the stored `state` is not even persisted, so a record that
was `playing` when the process died comes back as `none`. -/

/-- Modelled from the spec: `string2ResultType` (chess.cpp, outside src/) maps
the schedule-file result strings `"*" | "1-0" | "0-1" | "1/2-1/2"` of §6.3 to
result kinds; anything unrecognised is `noresult`. -/
def string2ResultType (s : String) : ResultType :=
  if s = "1-0" then .win
  else if s = "0-1" then .loss
  else if s = "1/2-1/2" then .draw
  else .noresult

/-- One record of the `recordList` array of `playing.json` (spec §6.3), the
input consumed by `MatchRecord::load`. -/
structure StoredRecord where
  playerW : String := ""
  playerB : String := ""
  startFen : String := ""
  startMoves : List Nat := []
  result : String := "*"
  gameIdx : Int := -1
  round : Int := 0
  pairId : Int := -1
deriving DecidableEq, Repr

/-- The `MatchRecord::load` (tourmng.cpp:52-81): read the stored fields, unpack
the opening moves, and set
`state = resultType == noresult ? none : completed`. -/
def MatchRecord.load (s : StoredRecord) : MatchRecord :=
  let rt := string2ResultType s.result
  { playerW := s.playerW
    playerB := s.playerB
    startFen := s.startFen
    startMoves := s.startMoves.map moveUnpack
    resultType := rt
    state := if rt = ResultType.noresult then MatchState.none else MatchState.completed
    gameIdx := s.gameIdx
    round := s.round
    pairId := s.pairId }

/-- The record-list part of `TourMng::loadMatchRecords` (tourmng.cpp:1150-1161):
every stored record loads successfully and is collected in order. -/
def loadRecordList (ss : List StoredRecord) : List MatchRecord :=
  ss.map MatchRecord.load

/-- C3: after loading a schedule file, no record is in state `playing`; each
record is `completed` exactly when its stored result is decided and `none`
exactly when the stored result was `"*"` (in-progress games are demoted and
re-enqueued). -/
theorem loadRecordList_no_playing (ss : List StoredRecord) (r : MatchRecord)
    (hr : r ∈ loadRecordList ss) :
    r.state ≠ MatchState.playing
    ∧ (r.state = MatchState.completed ↔ r.resultType ≠ ResultType.noresult)
    ∧ (r.state = MatchState.none ↔ r.resultType = ResultType.noresult) := by
  rcases List.mem_map.1 hr with ⟨s, _, rfl⟩
  unfold MatchRecord.load
  by_cases h : string2ResultType s.result = ResultType.noresult <;> simp [h]

/-- Witness for C3: a schedule with one in-progress, one finished and one
unstarted stored record; the in-progress record loads as `none`. -/
theorem loadRecordList_no_playing_witness :
    (MatchRecord.load { playerW := "A", playerB := "B", result := "*" }
        ∈ loadRecordList [{ playerW := "A", playerB := "B", result := "*" },
                          { playerW := "C", playerB := "D", result := "1-0" }])
    ∧ (MatchRecord.load { playerW := "A", playerB := "B", result := "*" }).state
        ≠ MatchState.playing :=
  ⟨by decide,
    (loadRecordList_no_playing
      [{ playerW := "A", playerB := "B", result := "*" },
       { playerW := "C", playerB := "D", result := "1-0" }]
      (MatchRecord.load { playerW := "A", playerB := "B", result := "*" })
      (by decide)).1⟩

/-!
## C10 / C1 — standings aggregation and ordering
(`TourMng::createTournamentStats`, tourmng.cpp:512-606)

The `std::map<std::string, TourPlayer> resultMap` is embedded as an
association list updated in place (`upsertPlayer`); none of the stated
properties depends on the map's key-sorted iteration order.  `std::sort` with
the comparator `rhs.smaller(lhs)` is embedded as `List.insertionSort` over
the corresponding non-strict relation: any conforming `std::sort` produces a
list sorted in exactly that sense. -/

/-- Replace the entry with the same name, or append (`resultMap[name] = r`). -/
def upsertPlayer : List TourPlayer → TourPlayer → List TourPlayer
  | [], p => [p]
  | q :: rest, p => if q.name = p.name then p :: rest else q :: upsertPlayer rest p

/-- The counter update of the aggregation loop (tourmng.cpp:534-548): bump
`gameCnt` and, depending on the record's result and the side the entry plays,
exactly one of `winCnt`/`drawCnt`/`lossCnt` (a side's win is
`win ∧ side = white` or `loss ∧ side = black`). -/
def bumpPlayer (r0 : TourPlayer) (rt : ResultType) (sd : Side) : TourPlayer :=
  match rt with
  | .win => if sd = Side.white
            then { r0 with gameCnt := r0.gameCnt + 1, winCnt := r0.winCnt + 1 }
            else { r0 with gameCnt := r0.gameCnt + 1, lossCnt := r0.lossCnt + 1 }
  | .draw => { r0 with gameCnt := r0.gameCnt + 1, drawCnt := r0.drawCnt + 1 }
  | .loss => if sd = Side.black
             then { r0 with gameCnt := r0.gameCnt + 1, winCnt := r0.winCnt + 1 }
             else { r0 with gameCnt := r0.gameCnt + 1, lossCnt := r0.lossCnt + 1 }
  | .noresult => { r0 with gameCnt := r0.gameCnt + 1 }

/-- The per-side body of the aggregation loop (tourmng.cpp:521-550): skip
empty names (knockout byes); find or create the player's entry; bump its
counters and store it back. -/
def tallySide (acc : List TourPlayer) (rec : MatchRecord) (sd : Side) : List TourPlayer :=
  let name := if sd = Side.white then rec.playerW else rec.playerB
  if name.isEmpty then acc
  else
    let r0 := (acc.find? (fun p => p.name = name)).getD { name := name }
    upsertPlayer acc (bumpPlayer r0 rec.resultType sd)

/-- The per-record body of the aggregation loop (tourmng.cpp:516-551): skip
records without a decided result, then tally both sides. -/
def tallyRecord (acc : List TourPlayer) (rec : MatchRecord) : List TourPlayer :=
  if rec.resultType = ResultType.noresult then acc
  else tallySide (tallySide acc rec Side.white) rec Side.black

/-- The fully aggregated `resultMap` of `createTournamentStats`. -/
def aggregateStandings (records : List MatchRecord) : List TourPlayer :=
  records.foldl tallyRecord []

/-- The non-strict order in which `std::sort` with comparator
`rhs.smaller(lhs)` (tourmng.cpp:560-563) leaves the standings: an earlier
entry is never `smaller` than a later one. -/
def notWorse (a b : TourPlayer) : Prop := ¬ TourPlayer.smaller a b

instance : DecidableRel notWorse := fun a b => by
  unfold notWorse
  infer_instance

instance : IsTotal TourPlayer notWorse := by
  constructor
  intro a b
  unfold notWorse TourPlayer.smaller
  omega

instance : IsTrans TourPlayer notWorse := by
  constructor
  intro a b c
  unfold notWorse TourPlayer.smaller
  omega

/-- The ranked standings list of `createTournamentStats`: aggregate all
decided records, then sort with the `TourPlayer::smaller`-based comparator. -/
def tournamentStandings (records : List MatchRecord) : List TourPlayer :=
  List.insertionSort notWorse (aggregateStandings records)

/-- The `gameCnt = winCnt + drawCnt + lossCnt` with all counters non-negative. -/
def countersOk (p : TourPlayer) : Prop :=
  p.gameCnt = p.winCnt + p.drawCnt + p.lossCnt
  ∧ 0 ≤ p.gameCnt ∧ 0 ≤ p.winCnt ∧ 0 ≤ p.drawCnt ∧ 0 ≤ p.lossCnt

instance : DecidablePred countersOk := fun p => by
  unfold countersOk
  infer_instance

lemma mem_upsertPlayer {p x : TourPlayer} :
    ∀ {l : List TourPlayer}, p ∈ upsertPlayer l x → p = x ∨ p ∈ l := by
  intro l
  induction l with
  | nil => intro hx; simpa [upsertPlayer] using hx
  | cons q rest ih =>
    intro hx
    unfold upsertPlayer at hx
    by_cases hq : q.name = x.name
    · rw [if_pos hq] at hx
      rcases List.mem_cons.1 hx with h | h
      · exact Or.inl h
      · exact Or.inr (List.mem_cons_of_mem q h)
    · rw [if_neg hq] at hx
      rcases List.mem_cons.1 hx with h | h
      · exact Or.inr (h ▸ List.mem_cons_self q rest)
      · rcases ih h with h2 | h2
        · exact Or.inl h2
        · exact Or.inr (List.mem_cons_of_mem q h2)

lemma countersOk_bumpPlayer {r0 : TourPlayer} (h : countersOk r0)
    {rt : ResultType} (hrt : rt ≠ ResultType.noresult) (sd : Side) :
    countersOk (bumpPlayer r0 rt sd) := by
  unfold countersOk at h ⊢
  rcases rt <;> rcases sd <;> simp [bumpPlayer] <;> first | omega | exact absurd rfl hrt

lemma countersOk_tallySide {acc : List TourPlayer} {rec : MatchRecord} {sd : Side}
    (hacc : ∀ p ∈ acc, countersOk p) (hrt : rec.resultType ≠ ResultType.noresult) :
    ∀ p ∈ tallySide acc rec sd, countersOk p := by
  intro p hp
  unfold tallySide at hp
  by_cases hname : (if sd = Side.white then rec.playerW else rec.playerB).isEmpty
  · rw [if_pos hname] at hp
    exact hacc p hp
  · rw [if_neg hname] at hp
    set name := if sd = Side.white then rec.playerW else rec.playerB with hdefname
    have hr0 : countersOk ((acc.find? (fun p => p.name = name)).getD { name := name }) := by
      rcases hfind : acc.find? (fun p => p.name = name) with _ | q
      · simp [countersOk, hfind]
      · simpa [hfind] using hacc q (List.mem_of_find?_eq_some hfind)
    rcases mem_upsertPlayer hp with rfl | hold
    · exact countersOk_bumpPlayer hr0 hrt sd
    · exact hacc p hold

lemma countersOk_aggregate (records : List MatchRecord) :
    ∀ p ∈ aggregateStandings records, countersOk p := by
  unfold aggregateStandings
  suffices h : ∀ (acc : List TourPlayer), (∀ p ∈ acc, countersOk p) →
      ∀ p ∈ records.foldl tallyRecord acc, countersOk p by
    exact h [] (by simp)
  induction records with
  | nil => intro acc hacc p hp; exact hacc p (by simpa using hp)
  | cons rec rest ih =>
    intro acc hacc p hp
    rw [List.foldl_cons] at hp
    refine ih (tallyRecord acc rec) ?_ p hp
    intro q hq
    unfold tallyRecord at hq
    by_cases hnr : rec.resultType = ResultType.noresult
    · rw [if_pos hnr] at hq
      exact hacc q hq
    · rw [if_neg hnr] at hq
      exact countersOk_tallySide (countersOk_tallySide hacc hnr) hnr q hq

/-- C10: every entry produced by the standings aggregation of
`createTournamentStats` satisfies `gameCnt = winCnt + drawCnt + lossCnt`
with all four counters non-negative: a decided record bumps, for each
non-empty player name, `gameCnt` together with exactly one of
`winCnt`/`drawCnt`/`lossCnt`. -/
theorem aggregateStandings_counters (records : List MatchRecord)
    (p : TourPlayer) (hp : p ∈ aggregateStandings records) :
    p.gameCnt = p.winCnt + p.drawCnt + p.lossCnt
    ∧ 0 ≤ p.gameCnt ∧ 0 ≤ p.winCnt ∧ 0 ≤ p.drawCnt ∧ 0 ≤ p.lossCnt :=
  countersOk_aggregate records p hp

/-- Witness for C10 on a one-game schedule: the winner's aggregated entry
satisfies the counter invariant. -/
theorem aggregateStandings_counters_witness :
    ({ name := "A", gameCnt := 1, winCnt := 1 } : TourPlayer).gameCnt
        = ({ name := "A", gameCnt := 1, winCnt := 1 } : TourPlayer).winCnt
          + ({ name := "A", gameCnt := 1, winCnt := 1 } : TourPlayer).drawCnt
          + ({ name := "A", gameCnt := 1, winCnt := 1 } : TourPlayer).lossCnt
      ∧ 0 ≤ ({ name := "A", gameCnt := 1, winCnt := 1 } : TourPlayer).gameCnt
      ∧ 0 ≤ ({ name := "A", gameCnt := 1, winCnt := 1 } : TourPlayer).winCnt
      ∧ 0 ≤ ({ name := "A", gameCnt := 1, winCnt := 1 } : TourPlayer).drawCnt
      ∧ 0 ≤ ({ name := "A", gameCnt := 1, winCnt := 1 } : TourPlayer).lossCnt :=
  aggregateStandings_counters
    [{ playerW := "A", playerB := "B", resultType := ResultType.win,
       state := MatchState.completed }]
    { name := "A", gameCnt := 1, winCnt := 1 } (by decide)

/-- C1: in the standings produced by `createTournamentStats`, whenever the
entry at position `i` has strictly more wins than the entry at position `j`,
or equal wins and fewer losses, or equal wins and losses and more draws,
then `i` comes first (`i < j`): descending by wins, ties broken by fewer
losses, then by more draws. -/
theorem tournamentStandings_order (records : List MatchRecord) (i j : Nat)
    (hi : i < (tournamentStandings records).length)
    (hj : j < (tournamentStandings records).length)
    (hbetter :
      letI A := (tournamentStandings records).getD i {}
      letI B := (tournamentStandings records).getD j {}
      B.winCnt < A.winCnt
      ∨ (A.winCnt = B.winCnt ∧ A.lossCnt < B.lossCnt)
      ∨ (A.winCnt = B.winCnt ∧ A.lossCnt = B.lossCnt ∧ B.drawCnt < A.drawCnt)) :
    i < j := by
  have hsorted : (tournamentStandings records).Sorted notWorse :=
    List.sorted_insertionSort notWorse (aggregateStandings records)
  rcases Nat.lt_trichotomy i j with h | h | h
  · exact h
  · subst h
    simp only [List.getD_eq_get _ _ hi] at hbetter
    omega
  · exfalso
    have hrel : notWorse ((tournamentStandings records).get ⟨j, hj⟩)
        ((tournamentStandings records).get ⟨i, hi⟩) :=
      hsorted.rel_get_of_lt (by simpa using h)
    rw [List.getD_eq_get _ _ hi, List.getD_eq_get _ _ hj] at hbetter
    unfold notWorse TourPlayer.smaller at hrel
    omega

/-- Witness for C1: a single decided game; the winner is ranked first. -/
theorem tournamentStandings_order_witness :
    (0 : Nat) < 1 ∧
      ((tournamentStandings
          [{ playerW := "A", playerB := "B", resultType := ResultType.win,
             state := MatchState.completed }]).getD 1 {}).winCnt
        < ((tournamentStandings
          [{ playerW := "A", playerB := "B", resultType := ResultType.win,
             state := MatchState.completed }]).getD 0 {}).winCnt :=
  ⟨tournamentStandings_order
      [{ playerW := "A", playerB := "B", resultType := ResultType.win,
         state := MatchState.completed }] 0 1 (by decide) (by decide)
      (Or.inl (by decide)),
    by decide⟩

/-!
## C4 — knockout winners (`TourMng::getKnockoutWinnerList`, tourmng.cpp:725-770)

The `std::map<int, TourPlayerPair> pairMap` is embedded as an association
list with lookup/replace-or-append update; the stated properties do not
depend on the map's key-sorted iteration order. -/

/-- The `TourPlayerPair` (tourmng.h): the two sides of one knockout pairing;
`pair[0]`/`pair[1]` become `pair0`/`pair1`. -/
structure TourPlayerPair where
  pair0 : TourPlayer := {}
  pair1 : TourPlayer := {}
deriving DecidableEq, Repr

/-- The `TourMng::getLastRound` (tourmng.cpp:716-723): maximum `round` over all
records, starting from 0. -/
def getLastRound (records : List MatchRecord) : Int :=
  records.foldl (fun acc r => max acc r.round) 0

/-- Lookup in the embedded `pairMap`. -/
def pairLookup (pm : List (Int × TourPlayerPair)) (pid : Int) : Option TourPlayerPair :=
  (pm.find? (fun e => e.1 = pid)).map Prod.snd

/-- The `pairMap[pid] = pp`: replace the entry or append it. -/
def pairStore : List (Int × TourPlayerPair) → Int → TourPlayerPair → List (Int × TourPlayerPair)
  | [], pid, pp => [(pid, pp)]
  | e :: rest, pid, pp => if e.1 = pid then (pid, pp) :: rest else e :: pairStore rest pid pp

/-- The accumulation body of the winner scan (tourmng.cpp:748-755): credit a
win to the side whose name matches the winner of a decided record, and a
White game to the side that played White in this record. -/
def koTallyRecord (pp : TourPlayerPair) (r : MatchRecord) : TourPlayerPair :=
  let pp1 :=
    if r.resultType = ResultType.win ∨ r.resultType = ResultType.loss then
      let idxW0 : Bool := pp.pair0.name == r.playerW
      let win0 : Bool := if r.resultType = ResultType.win then idxW0 else !idxW0
      if win0 then { pp with pair0 := { pp.pair0 with winCnt := pp.pair0.winCnt + 1 } }
      else { pp with pair1 := { pp.pair1 with winCnt := pp.pair1.winCnt + 1 } }
    else pp
  if pp1.pair0.name == r.playerW
  then { pp1 with pair0 := { pp1.pair0 with whiteCnt := pp1.pair0.whiteCnt + 1 } }
  else { pp1 with pair1 := { pp1.pair1 with whiteCnt := pp1.pair1.whiteCnt + 1 } }

/-- One iteration of the winner scan: find (or initialise, with this record's
player names) the pair for `r.pairId`, tally `r` into it and store it back. -/
def koStep (pm : List (Int × TourPlayerPair)) (r : MatchRecord) : List (Int × TourPlayerPair) :=
  let thePair := (pairLookup pm r.pairId).getD
    { pair0 := { name := r.playerW }, pair1 := { name := r.playerB } }
  pairStore pm r.pairId (koTallyRecord thePair r)

/-- The pair map built from a list of records without any round guard. -/
def koPairMapAll (rs : List MatchRecord) : List (Int × TourPlayerPair) :=
  rs.foldl koStep []

/-- The pair map of `getKnockoutWinnerList`: the scan skips every record
whose `round` is not the last round (tourmng.cpp:734-736). -/
def koPairMap (records : List MatchRecord) : List (Int × TourPlayerPair) :=
  records.foldl
    (fun pm r => if r.round = getLastRound records then koStep pm r else pm) []

/-- The winner selection (tourmng.cpp:758-767): side 0 wins unless side 1 has
more wins, or equal wins and fewer White games. -/
def selectKnockoutWinner (pp : TourPlayerPair) : TourPlayer :=
  if pp.pair0.winCnt < pp.pair1.winCnt
     ∨ (pp.pair1.winCnt = pp.pair0.winCnt ∧ pp.pair1.whiteCnt < pp.pair0.whiteCnt)
  then pp.pair1 else pp.pair0

/-- The `TourMng::getKnockoutWinnerList` (tourmng.cpp:725-770). -/
def getKnockoutWinnerList (records : List MatchRecord) : List TourPlayer :=
  (koPairMap records).map (fun e => selectKnockoutWinner e.2)

lemma foldl_filter_eq {α β : Type} (p : α → Bool) (f : β → α → β) :
    ∀ (l : List α) (init : β),
      (l.filter p).foldl f init = l.foldl (fun acc a => if p a then f acc a else acc) init := by
  intro l
  induction l with
  | nil => intro init; rfl
  | cons a rest ih =>
    intro init
    by_cases hp : p a <;> simp [List.filter_cons, hp, ih]

/-- C4: knockout winners are computed from the records of the last round
only, grouped by `pair_id`; for every pair the selected winner is the side
with more wins, and at equal wins the side with fewer White games. -/
theorem getKnockoutWinnerList_spec (records : List MatchRecord) :
    getKnockoutWinnerList records
      = (koPairMapAll
          (records.filter (fun r => r.round == getLastRound records))).map
          (fun e => selectKnockoutWinner e.2)
    ∧ ∀ pp : TourPlayerPair,
        (pp.pair1.winCnt < pp.pair0.winCnt → selectKnockoutWinner pp = pp.pair0)
        ∧ (pp.pair0.winCnt < pp.pair1.winCnt → selectKnockoutWinner pp = pp.pair1)
        ∧ (pp.pair0.winCnt = pp.pair1.winCnt → pp.pair0.whiteCnt < pp.pair1.whiteCnt →
            selectKnockoutWinner pp = pp.pair0)
        ∧ (pp.pair0.winCnt = pp.pair1.winCnt → pp.pair1.whiteCnt < pp.pair0.whiteCnt →
            selectKnockoutWinner pp = pp.pair1) := by
  constructor
  · unfold getKnockoutWinnerList koPairMap koPairMapAll
    rw [foldl_filter_eq]
    have hfun : (fun (acc : List (Int × TourPlayerPair)) (a : MatchRecord) =>
        if (a.round == getLastRound records) = true then koStep acc a else acc)
      = fun pm r => if r.round = getLastRound records then koStep pm r else pm := by
      funext pm r
      by_cases h : r.round = getLastRound records <;> simp [h]
    rw [hfun]
  · intro pp
    refine ⟨?_, ?_, ?_, ?_⟩ <;> intro h1 <;> unfold selectKnockoutWinner
    · rw [if_neg (by omega)]
    · rw [if_pos (by omega)]
    · intro h2
      rw [if_neg (by omega)]
    · intro h2
      rw [if_pos (by omega)]

/-- Witness for C4: one decided last-round pair; the winner of the single
game is selected. -/
theorem getKnockoutWinnerList_spec_witness :
    getKnockoutWinnerList
        [{ playerW := "A", playerB := "B", resultType := ResultType.win,
           state := MatchState.completed, round := 1, pairId := 7 }]
      = (koPairMapAll
          ([{ playerW := "A", playerB := "B", resultType := ResultType.win,
              state := MatchState.completed, round := 1, pairId := 7 }].filter
            (fun r => r.round == getLastRound
              [{ playerW := "A", playerB := "B", resultType := ResultType.win,
                 state := MatchState.completed, round := 1, pairId := 7 }]))).map
          (fun e => selectKnockoutWinner e.2)
    ∧ selectKnockoutWinner
        { pair0 := { name := "A", winCnt := 1, whiteCnt := 1 },
          pair1 := { name := "B" } }
      = ({ name := "A", winCnt := 1, whiteCnt := 1 } : TourPlayer) :=
  ⟨(getKnockoutWinnerList_spec _).1,
    ((getKnockoutWinnerList_spec
        [{ playerW := "A", playerB := "B", resultType := ResultType.win,
           state := MatchState.completed, round := 1, pairId := 7 }]).2
      { pair0 := { name := "A", winCnt := 1, whiteCnt := 1 },
        pair1 := { name := "B" } }).1 (by decide)⟩

/-!
## C5 — knockout tie extension (`TourMng::checkToExtendMatches`,
tourmng.cpp:669-714)

The opening book (`bookMng.getRandomBook`) is external; it is abstracted as
an oracle `book` from the new record's `gameIdx` to the start position and
opening moves it stores into the record. -/

/-- The `TourMng::addMatchRecord_simple` (tourmng.cpp:645-650): stamp the record
with the next `gameIdx` (the current list length), draw an opening from the
book, and push it. -/
def addMatchRecordSimple (book : Nat → String × List Move)
    (acc : List MatchRecord) (r : MatchRecord) : List MatchRecord :=
  acc ++ [{ r with gameIdx := Int.ofNat acc.length,
                   startFen := (book acc.length).1,
                   startMoves := (book acc.length).2 }]

/-- The initial `playerPair` of the extension check (tourmng.cpp:677-679):
both sides named after the completed record, counters zero. -/
def extendInit (r : MatchRecord) : TourPlayerPair :=
  { pair0 := { name := r.playerW }, pair1 := { name := r.playerB } }

/-- The tally body of the extension check (tourmng.cpp:691-698).  Unlike the
winner scan, a drawn record is skipped entirely (`continue`), so it counts
neither a win nor a White game. -/
def extTallyRecord (pp : TourPlayerPair) (rcd : MatchRecord) : TourPlayerPair :=
  if rcd.resultType ≠ ResultType.win ∧ rcd.resultType ≠ ResultType.loss then pp
  else
    let winnerName := if rcd.resultType = ResultType.win then rcd.playerW else rcd.playerB
    let pp1 := if pp.pair0.name == winnerName
      then { pp with pair0 := { pp.pair0 with winCnt := pp.pair0.winCnt + 1 } }
      else { pp with pair1 := { pp.pair1 with winCnt := pp.pair1.winCnt + 1 } }
    if pp1.pair0.name == rcd.playerW
    then { pp1 with pair0 := { pp1.pair0 with whiteCnt := pp1.pair0.whiteCnt + 1 } }
    else { pp1 with pair1 := { pp1.pair1 with whiteCnt := pp1.pair1.whiteCnt + 1 } }

/-- The inner loop of the extension check (tourmng.cpp:682-699): scan all
records of the pair; bail out (`return`, modelled as `none`) at the first
record of the pair that is not yet completed, else accumulate the tally. -/
def extendScan (pid : Int) : List MatchRecord → TourPlayerPair → Option TourPlayerPair
  | [], pp => some pp
  | rcd :: rest, pp =>
    if rcd.pairId ≠ pid then extendScan pid rest pp
    else if rcd.state ≠ MatchState.completed then none
    else extendScan pid rest (extTallyRecord pp rcd)

/-- The `TourMng::checkToExtendMatches` (tourmng.cpp:669-714): find the record at
`gIdx`; if all records of its pair are completed and both sides have equal
wins and equal White games, append one extension record copying that record
with `resultType = noresult` and `state = none`. -/
def checkToExtendMatches (ttype : TourType) (book : Nat → String × List Move)
    (records : List MatchRecord) (gIdx : Int) : List MatchRecord :=
  if ttype ≠ TourType.knockout ∨ gIdx < 0 then records
  else
    match records.find? (fun x => x.gameIdx == gIdx) with
    | none => records
    | some r =>
      match extendScan r.pairId records (extendInit r) with
      | none => records
      | some pp =>
        if pp.pair0.winCnt = pp.pair1.winCnt ∧ pp.pair0.whiteCnt = pp.pair1.whiteCnt then
          addMatchRecordSimple book records
            { r with resultType := ResultType.noresult, state := MatchState.none }
        else records

lemma extendScan_eq_none_iff (pid : Int) :
    ∀ (l : List MatchRecord) (pp : TourPlayerPair),
      extendScan pid l pp = Option.none
        ↔ ∃ rcd ∈ l, rcd.pairId = pid ∧ rcd.state ≠ MatchState.completed := by
  intro l
  induction l with
  | nil => intro pp; simp [extendScan]
  | cons rcd rest ih =>
    intro pp
    by_cases hpid : rcd.pairId ≠ pid
    · rw [show extendScan pid (rcd :: rest) pp = extendScan pid rest pp by
        simp [extendScan, hpid]]
      rw [ih pp]
      constructor
      · rintro ⟨x, hx, hp, hs⟩; exact ⟨x, List.mem_cons_of_mem rcd hx, hp, hs⟩
      · rintro ⟨x, hx, hp, hs⟩
        rcases List.mem_cons.1 hx with rfl | hx2
        · exact absurd hp hpid
        · exact ⟨x, hx2, hp, hs⟩
    · push_neg at hpid
      by_cases hst : rcd.state ≠ MatchState.completed
      · rw [show extendScan pid (rcd :: rest) pp = Option.none by
          simp [extendScan, hpid, hst]]
        constructor
        · intro _
          exact ⟨rcd, List.mem_cons_self rcd rest, hpid, hst⟩
        · intro _; rfl
      · push_neg at hst
        rw [show extendScan pid (rcd :: rest) pp
            = extendScan pid rest (extTallyRecord pp rcd) by
          simp [extendScan, hpid, hst]]
        rw [ih (extTallyRecord pp rcd)]
        constructor
        · rintro ⟨x, hx, hp, hs⟩; exact ⟨x, List.mem_cons_of_mem rcd hx, hp, hs⟩
        · rintro ⟨x, hx, hp, hs⟩
          rcases List.mem_cons.1 hx with rfl | hx2
          · exact absurd hst hs
          · exact ⟨x, hx2, hp, hs⟩

/-- C5: when the record at `gIdx` has completed in a knockout tournament:
the pair scan bails out exactly when some record of the pair is not yet
completed, in which case the record list is unchanged; when all records of
the pair are completed, exactly one extension record — same colours, same
round, `state = none`, `result = noresult` — is appended iff the tallied win
counts and White-game counts of the two sides are both equal, and otherwise
the list is unchanged. -/
theorem checkToExtendMatches_spec (book : Nat → String × List Move)
    (records : List MatchRecord) (gIdx : Int) (r : MatchRecord)
    (hg : 0 ≤ gIdx)
    (hfind : records.find? (fun x => x.gameIdx == gIdx) = some r) :
    (extendScan r.pairId records (extendInit r) = Option.none
        ↔ ∃ rcd ∈ records, rcd.pairId = r.pairId ∧ rcd.state ≠ MatchState.completed)
    ∧ (extendScan r.pairId records (extendInit r) = Option.none →
        checkToExtendMatches TourType.knockout book records gIdx = records)
    ∧ ∀ pp : TourPlayerPair,
        extendScan r.pairId records (extendInit r) = some pp →
        ((pp.pair0.winCnt = pp.pair1.winCnt ∧ pp.pair0.whiteCnt = pp.pair1.whiteCnt) →
          checkToExtendMatches TourType.knockout book records gIdx
            = records ++ [{ r with
                            resultType := ResultType.noresult,
                            state := MatchState.none,
                            gameIdx := Int.ofNat records.length,
                            startFen := (book records.length).1,
                            startMoves := (book records.length).2 }])
        ∧ ((pp.pair0.winCnt ≠ pp.pair1.winCnt ∨ pp.pair0.whiteCnt ≠ pp.pair1.whiteCnt) →
          checkToExtendMatches TourType.knockout book records gIdx = records) := by
  have hguard : ¬ (TourType.knockout ≠ TourType.knockout ∨ gIdx < 0) := by
    push_neg
    exact ⟨rfl, by omega⟩
  refine ⟨extendScan_eq_none_iff r.pairId records (extendInit r), ?_, ?_⟩
  · intro hnone
    unfold checkToExtendMatches
    rw [if_neg hguard, hfind]
    simp only [hnone]
  · intro pp hsome
    constructor
    · intro htie
      unfold checkToExtendMatches
      rw [if_neg hguard, hfind]
      simp only [hsome]
      rw [if_pos htie]
      rfl
    · intro hne
      unfold checkToExtendMatches
      rw [if_neg hguard, hfind]
      simp only [hsome]
      rw [if_neg (by tauto)]

/-- First tied game of the C5 demonstration pair: A beats B as White. -/
def extDemoRec0 : MatchRecord :=
  { playerW := "A", playerB := "B", resultType := ResultType.win,
    state := MatchState.completed, gameIdx := 0, round := 0, pairId := 5 }

/-- Second tied game of the C5 demonstration pair: B beats A as White. -/
def extDemoRec1 : MatchRecord :=
  { playerW := "B", playerB := "A", resultType := ResultType.win,
    state := MatchState.completed, gameIdx := 1, round := 0, pairId := 5 }

/-- The tallied pair of the C5 demonstration: one win and one White game
each — a tie. -/
def extDemoPair : TourPlayerPair :=
  { pair0 := { name := "B", winCnt := 1, whiteCnt := 1 },
    pair1 := { name := "A", winCnt := 1, whiteCnt := 1 } }

/-- Witness for C5: the demonstration pair is fully completed and tied (one
decided game each way, equal White counts), so exactly one extension record
is appended. -/
theorem checkToExtendMatches_spec_witness :
    (0 : Int) ≤ 1
    ∧ checkToExtendMatches TourType.knockout (fun _ => ("", []))
        [extDemoRec0, extDemoRec1] 1
      = [extDemoRec0, extDemoRec1]
        ++ [{ extDemoRec1 with
              resultType := ResultType.noresult,
              state := MatchState.none,
              gameIdx := Int.ofNat 2,
              startFen := ((fun (_ : Nat) => ("", ([] : List Move))) 2).1,
              startMoves := ((fun (_ : Nat) => ("", ([] : List Move))) 2).2 }] :=
  ⟨by decide,
    ((checkToExtendMatches_spec (fun _ => ("", []))
        [extDemoRec0, extDemoRec1] 1 extDemoRec1
        (by decide) (by decide)).2.2 extDemoPair (by decide)).1 (by decide)⟩

/-!
## C7 / C8 — the per-game driver (`Game`, game.cpp)

The `Board` rules module and the engine `Player` adapter are external
collaborators (spec §6); they are abstracted as the oracle structure
`BoardIface` and as a trace of calls issued to the two players.  The
`TimeController` is likewise external: its clock state is not modelled, and
the outcome of `isTimeOver` enters as the boolean parameter `timeOverNow`.
`double` quantities that the driver merely stores (elapsed think time)
become `Rat`. -/

/-- The `GameState` (game.h): the per-game state machine values. -/
inductive GameState where
  | none
  | begin
  | ready
  | playing
  | stopped
  | ending
  | ended
deriving DecidableEq, Repr

/-- The `EngineComputingState` (engine.h, outside src/): the computing state a
player reports with each move callback; the driver only distinguishes
`thinking` and `pondering`. -/
inductive EngineComputingState where
  | idle
  | thinking
  | pondering
deriving DecidableEq, Repr

/-- A call issued by the driver to one of its players, recorded in a trace. -/
inductive PlayerCall where
  | go
  | goPonder (m : Move)
  | stopThinking
  | oppositeMadeMove (m : Move) (san : String)
deriving DecidableEq, Repr

/-- Whether a call is a `goPonder` call (with any argument). -/
def PlayerCall.isGoPonder : PlayerCall → Bool
  | goPonder _ => true
  | _ => false

/-- One entry of `board.histList` as the driver touches it: the SAN string
of the move, whether it captured, and the stamped statistics. -/
structure HistEntry where
  moveString : String := ""
  comment : String := ""
  cap : Bool := false
  elapsed : Rat := 0
  score : Int := 0
  depth : Int := 0
  nodes : Int := 0
deriving DecidableEq, Repr

/-- The board state the driver observes: side to move, final result, move
history. -/
structure BoardSt where
  side : Side := Side.white
  result : Result := {}
  histList : List HistEntry := []
deriving DecidableEq, Repr

/-- The `GameConfig` (game.h): ponder mode and the adjudication block. -/
structure GameConfig where
  ponderMode : Bool := false
  adjudicationMode : Bool := false
  adjudicationMaxGameLength : Nat := 0
  adjudicationEgtbMode : Bool := false
  adjudicationMaxPieces : Nat := 0
deriving DecidableEq, Repr

/-- The external `Board` rules module (spec §6.2) as an oracle:
`checkMake` returns the successor board on a legal move and `none` on an
illegal one; `rule` reports terminal conditions; `probeSyzygy` returns a
tablebase result and an error flag. -/
structure BoardIface where
  checkMake : BoardSt → Move → Option BoardSt
  rule : BoardSt → Result
  probeSyzygy : BoardSt → Nat → Result × Bool

/-- The driver state: game state machine, board, player names, the trace of
calls issued to the players, and the system log. -/
structure GameM where
  state : GameState := GameState.none
  stateTick : Nat := 0
  board : BoardSt := {}
  nameW : String := ""
  nameB : String := ""
  calls : List (Side × PlayerCall) := []
  log : List String := []
deriving DecidableEq, Repr

/-- The `players[sd]->getName()` for a side. -/
def GameM.playerName (g : GameM) : Side → String
  | .white => g.nameW
  | .black => g.nameB

/-- The `Game::setState` (game.cpp:63-69): reset `stateTick` on a state change. -/
def GameM.setState (g : GameM) (st : GameState) : GameM :=
  if g.state ≠ st then { g with state := st, stateTick := 0 }
  else { g with state := st }

/-- The `Game::gameOver(const Result&)` (game.cpp:274-284): stop both players,
record the result, transition to `stopped`. -/
def gameOverResult (g : GameM) (result : Result) : GameM :=
  let g1 := { g with
    calls := g.calls ++ [(Side.white, PlayerCall.stopThinking),
                         (Side.black, PlayerCall.stopThinking)] }
  GameM.setState { g1 with board := { g1.board with result := result } } GameState.stopped

/-- The `Game::gameOver(Side, ReasonType)` (game.cpp:268-272): the winner's side
determines the result kind (`win` = White won). -/
def gameOverWinner (g : GameM) (winner : Side) (reason : ReasonType) : GameM :=
  gameOverResult g
    { result := if winner = Side.white then ResultType.win else ResultType.loss,
      reason := reason }

/-- The `Game::startThinking` (game.cpp:166-176): the player not on move gets
`goPonder(pondermove)` — unconditionally — and the side to move gets `go`.
(The clock re-setup call goes to the external `TimeController`.) -/
def startThinking (g : GameM) (pondermove : Move) : GameM :=
  { g with calls := g.calls
      ++ [(xSide g.board.side, PlayerCall.goPonder pondermove),
          (g.board.side, PlayerCall.go)] }

/-- The `Game::checkTimeOver` (game.cpp:309-340): if the external clock reports
time-out, log a diagnostic and end the game with the opponent winning by
timeout.  The diagnostic's numeric content comes from the external
`TimeController` and is elided. -/
def checkTimeOver (timeOverNow : Bool) (g : GameM) : GameM × Bool :=
  if timeOverNow then
    let g1 := { g with log := g.log ++ ["Timeleft"] }
    (gameOverWinner g1 (xSide g1.board.side) ReasonType.timeout, true)
  else (g, false)

/-- The `Game::make` (game.cpp:221-266).  On a legal move: consult `rule`; if not
terminal, adjudicate (game length, then tablebase); if still not terminal,
inform the new side to move of the opponent's move and return `true`.  On an
illegal move: log `"Illegal move X from <name>"` and end the game with the
opponent winning by illegal-move. -/
def make (bi : BoardIface) (cfg : GameConfig) (g : GameM) (move : Move)
    (moveString : String) : GameM × Bool :=
  match bi.checkMake g.board move with
  | some b2 =>
    let g := { g with board := b2 }
    let finishMove : GameM → GameM × Bool := fun g =>
      let san := ((g.board.histList.getLast?).map (fun h => h.moveString)).getD ""
      ({ g with calls := g.calls ++ [(g.board.side, PlayerCall.oppositeMadeMove move san)] },
        true)
    let result := bi.rule g.board
    if result.result ≠ ResultType.noresult then (gameOverResult g result, false)
    else if cfg.adjudicationMode then
      if cfg.adjudicationMaxGameLength ≠ 0
          ∧ cfg.adjudicationMaxGameLength ≤ g.board.histList.length then
        (gameOverResult g { result := ResultType.draw, reason := ReasonType.adjudication },
          false)
      else if cfg.adjudicationEgtbMode then
        let pr := bi.probeSyzygy g.board cfg.adjudicationMaxPieces
        if pr.1.result = ResultType.noresult then
          finishMove (if pr.2 ∧ (((g.board.histList.getLast?).map (fun h => h.cap)).getD false)
            then { g with log := g.log
              ++ ["Error: unable to probe tablebase, position invalid, illegal or not in tablebase"] }
            else g)
        else (gameOverResult g pr.1, false)
      else finishMove g
    else finishMove g
  | none =>
    let name := g.playerName g.board.side
    let g1 := { g with log := g.log ++ ["Illegal move " ++ moveString ++ " from " ++ name] }
    (gameOverWinner g1 (xSide g1.board.side) ReasonType.illegalmove, false)

/-- The history stamping of `Game::moveFromPlayer` (game.cpp:207-211): write
elapsed time and the player-reported score/depth/nodes into the last history
entry.  (The clock update goes to the external `TimeController`.) -/
def stampLast (g : GameM) (timeConsumed : Rat) (score depth nodes : Int) : GameM :=
  match g.board.histList.getLast? with
  | none => g
  | some h =>
    { g with board := { g.board with
        histList := g.board.histList.dropLast
          ++ [{ h with
                elapsed := timeConsumed,
                score := score,
                depth := depth,
                nodes := nodes }] } }

/-- The `Game::moveFromPlayer` (game.cpp:186-219).  Guards: the game must be
`playing` and the reporting side on move; then (under the critical mutex)
time-out is checked; a `thinking` callback attempts the move and on success
stamps history and starts the next move; a `pondering` callback (missed
ponderhit) re-issues `go`; anything else is dropped.  The "TimeOver for X"
log line's move rendering comes from outside src/ and is elided. -/
def moveFromPlayer (bi : BoardIface) (cfg : GameConfig) (timeOverNow : Bool)
    (g : GameM) (move : Move) (moveString : String) (ponderMove : Move)
    (timeConsumed : Rat) (score depth nodes : Int) (side : Side)
    (oldState : EngineComputingState) : GameM :=
  if g.state ≠ GameState.playing ∨ g.board.side ≠ side then g
  else
    let ct := checkTimeOver timeOverNow g
    if ct.2 then { ct.1 with log := ct.1.log ++ ["TimeOver"] }
    else if oldState = EngineComputingState.thinking then
      let mk := make bi cfg ct.1 move moveString
      if mk.2 then
        startThinking (stampLast mk.1 timeConsumed score depth nodes)
          (if cfg.ponderMode then ponderMove else Move.illegalMove)
      else mk.1
    else if oldState = EngineComputingState.pondering then
      { ct.1 with calls := ct.1.calls ++ [(side, PlayerCall.go)] }
    else ct.1

/-- C7: a move reported by the side to move while the game is playing, with
no time-out pending, whose `checkMake` fails, ends the game in state
`stopped` with the opponent of the reporting side as winner, reason
illegal-move, and appends the log line
`"Illegal move X from <name>"` for the offender's name. -/
theorem moveFromPlayer_illegal (bi : BoardIface) (cfg : GameConfig) (g : GameM)
    (move : Move) (moveString : String) (ponderMove : Move) (timeConsumed : Rat)
    (score depth nodes : Int) (side : Side)
    (hplay : g.state = GameState.playing) (hside : g.board.side = side)
    (hmk : bi.checkMake g.board move = Option.none) :
    letI g2 := moveFromPlayer bi cfg false g move moveString ponderMove
      timeConsumed score depth nodes side EngineComputingState.thinking
    g2.state = GameState.stopped
    ∧ g2.board.result
        = { result := if side = Side.white then ResultType.loss else ResultType.win,
            reason := ReasonType.illegalmove }
    ∧ g2.log = g.log ++ ["Illegal move " ++ moveString ++ " from " ++ g.playerName side] := by
  have hguard : ¬ (g.state ≠ GameState.playing ∨ g.board.side ≠ side) := by
    push_neg
    exact ⟨hplay, hside⟩
  unfold moveFromPlayer
  rw [if_neg hguard]
  simp only [checkTimeOver, if_neg (Bool.false_ne_true), reduceIte, if_pos rfl]
  unfold make
  rw [hmk]
  rcases side <;> rcases hx : g.state <;>
    simp_all [gameOverWinner, gameOverResult, GameM.setState, xSide, hside]

/-- Witness for C7: a concrete playing game in which White reports a move the
board rejects; Black wins by illegal-move and the offence is logged. -/
theorem moveFromPlayer_illegal_witness :
    letI g0 : GameM :=
      { state := GameState.playing, board := { side := Side.white },
        nameW := "A", nameB := "B" }
    letI bi0 : BoardIface :=
      { checkMake := fun _ _ => Option.none, rule := fun _ => {},
        probeSyzygy := fun _ _ => ({}, false) }
    letI g2 := moveFromPlayer bi0 {} false g0 { origin := 0, dest := 56, promotion := 0 }
      "a1a8" { origin := 0, dest := 0, promotion := 0 } 0 0 0 0 Side.white
      EngineComputingState.thinking
    g2.state = GameState.stopped
    ∧ g2.board.result
        = { result := ResultType.loss, reason := ReasonType.illegalmove }
    ∧ g2.log = ["Illegal move a1a8 from A"] := by
  have h := moveFromPlayer_illegal
    { checkMake := fun _ _ => Option.none, rule := fun _ => {},
      probeSyzygy := fun _ _ => ({}, false) } {}
    { state := GameState.playing, board := { side := Side.white },
      nameW := "A", nameB := "B" }
    { origin := 0, dest := 56, promotion := 0 } "a1a8"
    { origin := 0, dest := 0, promotion := 0 } 0 0 0 0 Side.white
    rfl rfl rfl
  simpa using h

lemma stampLast_calls (g : GameM) (timeConsumed : Rat) (score depth nodes : Int) :
    (stampLast g timeConsumed score depth nodes).calls = g.calls := by
  unfold stampLast
  rcases h : g.board.histList.getLast? <;> simp

lemma stampLast_side (g : GameM) (timeConsumed : Rat) (score depth nodes : Int) :
    (stampLast g timeConsumed score depth nodes).board.side = g.board.side := by
  unfold stampLast
  rcases h : g.board.histList.getLast? <;> simp

/-- C8 (amended): after every successfully applied non-terminal move, the new
side-to-move's player receives `go`, and the player who just moved always
receives a `goPonder` call — its argument is the reported ponder move when
ponder mode is enabled and the `illegalMove` sentinel (conveying no ponder
move) when it is disabled. -/
theorem moveFromPlayer_go_goPonder (bi : BoardIface) (cfg : GameConfig) (g : GameM)
    (move : Move) (moveString : String) (ponderMove : Move) (timeConsumed : Rat)
    (score depth nodes : Int) (side : Side)
    (hplay : g.state = GameState.playing) (hside : g.board.side = side)
    (hok : (make bi cfg g move moveString).2 = true) :
    letI gm := (make bi cfg g move moveString).1
    letI g2 := moveFromPlayer bi cfg false g move moveString ponderMove
      timeConsumed score depth nodes side EngineComputingState.thinking
    g2.calls = gm.calls
      ++ [(xSide gm.board.side,
            PlayerCall.goPonder (if cfg.ponderMode then ponderMove else Move.illegalMove)),
          (gm.board.side, PlayerCall.go)] := by
  have hguard : ¬ (g.state ≠ GameState.playing ∨ g.board.side ≠ side) := by
    push_neg
    exact ⟨hplay, hside⟩
  unfold moveFromPlayer
  rw [if_neg hguard]
  simp only [checkTimeOver, Bool.false_eq_true, reduceIte, if_pos rfl]
  rw [if_pos hok]
  unfold startThinking
  rw [stampLast_calls, stampLast_side]

/-- The board oracle of the C8 demonstration: every move is legal, flips the
side to move and appends a history entry; no terminal condition is ever
reported. -/
def demoBoardIface : BoardIface :=
  { checkMake := fun b _ =>
      some { b with side := xSide b.side, histList := b.histList ++ [{}] },
    rule := fun _ => {},
    probeSyzygy := fun _ _ => ({}, false) }

/-- The C8 demonstration game: playing, White to move. -/
def demoGame : GameM :=
  { state := GameState.playing, board := { side := Side.white },
    nameW := "A", nameB := "B" }

/-- C8 counterexample to the claim as stated: with ponder mode OFF, after
White's successfully applied non-terminal move, the opponent of the new
side-to-move (the player who just moved, White) still receives a `goPonder`
call — the driver issues it unconditionally, with the illegal-move sentinel
as argument (game.cpp:174, 214) — contradicting "the opponent's player
receives no ponder call". -/
theorem moveFromPlayer_goPonder_when_ponder_off :
    ((moveFromPlayer demoBoardIface { ponderMode := false } false demoGame
        { origin := 12, dest := 28, promotion := 0 } "e2e4"
        { origin := 51, dest := 35, promotion := 0 } 0 0 0 0 Side.white
        EngineComputingState.thinking).calls.any
      (fun c => c.1 == Side.white && c.2.isGoPonder)) = true := by
  decide

/-- Witness for C8 (amended) on the demonstration game: the issued calls end
with `goPonder illegalMove` to White (the mover) and `go` to Black. -/
theorem moveFromPlayer_go_goPonder_witness :
    (moveFromPlayer demoBoardIface { ponderMode := false } false demoGame
        { origin := 12, dest := 28, promotion := 0 } "e2e4"
        { origin := 51, dest := 35, promotion := 0 } 0 0 0 0 Side.white
        EngineComputingState.thinking).calls
      = (make demoBoardIface { ponderMode := false } demoGame
          { origin := 12, dest := 28, promotion := 0 } "e2e4").1.calls
        ++ [(xSide (make demoBoardIface { ponderMode := false } demoGame
                { origin := 12, dest := 28, promotion := 0 } "e2e4").1.board.side,
              PlayerCall.goPonder (if ({ ponderMode := false } : GameConfig).ponderMode
                then { origin := 51, dest := 35, promotion := 0 } else Move.illegalMove)),
            ((make demoBoardIface { ponderMode := false } demoGame
                { origin := 12, dest := 28, promotion := 0 } "e2e4").1.board.side,
              PlayerCall.go)] :=
  moveFromPlayer_go_goPonder demoBoardIface { ponderMode := false } demoGame
    { origin := 12, dest := 28, promotion := 0 } "e2e4"
    { origin := 51, dest := 35, promotion := 0 } 0 0 0 0 Side.white
    rfl rfl (by decide)

/-!
## C6 — round-robin schedule shape
(`TourMng::createMatchList`, tourmng.cpp:877-938; `TourMng::addMatchRecord`,
tourmng.cpp:636-643)

External inputs are abstracted as oracles: `nameOk` is
`ConfigMng::isNameExistent`; `book` the opening book (as in C5); the PRNG
draws are indexed by the running pair counter — `randSwap i` is the
`rand() & 1` colour flip and `randPid i` the `std::rand()` pair id of the
`i`-th created pair.  `std::shuffle` (used only when "shuffle players" is
set) permutes the name list before pairing, so quantifying over `names`
covers every shuffle outcome. -/

/-- Modelled from the spec: the constructor `MatchRecord(name0, name1, swap)`
(tourmng.h, outside src/) — a coin flip on who plays White: if `swap`,
`name1` takes White. -/
def mkMatchRecord (name0 name1 : String) (swap : Bool) : MatchRecord :=
  if swap then { playerW := name1, playerB := name0 }
  else { playerW := name0, playerB := name1 }

/-- The loop of `TourMng::addMatchRecord` (tourmng.cpp:639-642): add the
record `gameperpair` times, swapping the colours after each addition. -/
def addMatchRecordLoop (book : Nat → String × List Move) :
    Nat → List MatchRecord → MatchRecord → List MatchRecord
  | 0, acc, _ => acc
  | n + 1, acc, r =>
    addMatchRecordLoop book n (addMatchRecordSimple book acc r) r.swapPlayers

/-- The `TourMng::addMatchRecord` (tourmng.cpp:636-643): draw a fresh `pairId`,
then add `gameperpair` colour-alternating copies. -/
def addMatchRecord (book : Nat → String × List Move) (pid : Int) (gpp : Nat)
    (acc : List MatchRecord) (r : MatchRecord) : List MatchRecord :=
  addMatchRecordLoop book gpp acc { r with pairId := pid }

/-- The inner loop of the round-robin case (tourmng.cpp:902-913): pair
`name0` against every later name; stop with an error on the first name
missing from the engine configuration.  Returns the accumulated records, the
advanced pair counter, and the error flag. -/
def rrInner (nameOk : String → Bool) (book : Nat → String × List Move)
    (randPid : Nat → Int) (randSwap : Nat → Bool) (gpp : Nat) (name0 : String) :
    List String → Nat → List MatchRecord → List MatchRecord × Nat × Bool
  | [], pidx, acc => (acc, pidx, false)
  | name1 :: rest, pidx, acc =>
    if nameOk name1 = false then (acc, pidx, true)
    else
      rrInner nameOk book randPid randSwap gpp name0 rest (pidx + 1)
        (addMatchRecord book (randPid pidx) gpp acc
          { mkMatchRecord name0 name1 (randSwap pidx) with round := 1 })

/-- The outer loop of the round-robin case (tourmng.cpp:896-914): iterate
over every name but the last; an error from either loop stops pairing. -/
def rrOuter (nameOk : String → Bool) (book : Nat → String × List Move)
    (randPid : Nat → Int) (randSwap : Nat → Bool) (gpp : Nat) :
    List String → Nat → List MatchRecord → List MatchRecord × Nat × Bool
  | [], pidx, acc => (acc, pidx, false)
  | [_], pidx, acc => (acc, pidx, false)
  | name0 :: name1 :: rest, pidx, acc =>
    if nameOk name0 = false then (acc, pidx, true)
    else
      match rrInner nameOk book randPid randSwap gpp name0 (name1 :: rest) pidx acc with
      | (acc2, pidx2, true) => (acc2, pidx2, true)
      | (acc2, pidx2, false) =>
        rrOuter nameOk book randPid randSwap gpp (name1 :: rest) pidx2 acc2

/-- The round-robin branch of `TourMng::createMatchList`
(tourmng.cpp:877-938): fewer than two players or a missing engine
configuration is an error (`none`); otherwise the full schedule. -/
def createMatchListRR (nameOk : String → Bool) (book : Nat → String × List Move)
    (randPid : Nat → Int) (randSwap : Nat → Bool) (gpp : Nat)
    (names : List String) : Option (List MatchRecord) :=
  if names.length < 2 then Option.none
  else
    match rrOuter nameOk book randPid randSwap gpp names 0 [] with
    | (_, _, true) => Option.none
    | (acc, _, false) => some acc

/-- The block of records one `addMatchRecord` call produces, starting at
global index `s`: `n` copies of `r`, colours swapped after each, each
stamped with its `gameIdx` and book opening. -/
def blockAux (book : Nat → String × List Move) : Nat → Nat → MatchRecord → List MatchRecord
  | 0, _, _ => []
  | n + 1, s, r =>
    { r with gameIdx := Int.ofNat s, startFen := (book s).1, startMoves := (book s).2 }
      :: blockAux book n (s + 1) r.swapPlayers

/-- The base record of the `i`-th created pair. -/
def pairBase (randPid : Nat → Int) (randSwap : Nat → Bool)
    (name0 name1 : String) (pidx : Nat) : MatchRecord :=
  { mkMatchRecord name0 name1 (randSwap pidx) with round := 1, pairId := randPid pidx }

/-- The records the inner loop appends for `name0` against `js`, with pair
counter `pidx` and global index `s`. -/
def rrInnerBlocks (book : Nat → String × List Move) (randPid : Nat → Int)
    (randSwap : Nat → Bool) (gpp : Nat) (name0 : String) :
    List String → Nat → Nat → List MatchRecord
  | [], _, _ => []
  | name1 :: rest, pidx, s =>
    blockAux book gpp s (pairBase randPid randSwap name0 name1 pidx)
      ++ rrInnerBlocks book randPid randSwap gpp name0 rest (pidx + 1) (s + gpp)

/-- The records the outer loop appends for the name list `names`. -/
def rrOuterBlocks (book : Nat → String × List Move) (randPid : Nat → Int)
    (randSwap : Nat → Bool) (gpp : Nat) :
    List String → Nat → Nat → List MatchRecord
  | [], _, _ => []
  | [_], _, _ => []
  | name0 :: name1 :: rest, pidx, s =>
    rrInnerBlocks book randPid randSwap gpp name0 (name1 :: rest) pidx s
      ++ rrOuterBlocks book randPid randSwap gpp (name1 :: rest)
          (pidx + (name1 :: rest).length) (s + gpp * (name1 :: rest).length)

/-- The number of unordered pairs the round-robin loops visit. -/
def pairCount : List String → Nat
  | [] => 0
  | _ :: rest => rest.length + pairCount rest

/-- Whether record `x` pairs `p` against `q` (in either colour order). -/
def pairPred (p q : String) (x : MatchRecord) : Bool :=
  (x.playerW == p && x.playerB == q) || (x.playerW == q && x.playerB == p)

/-- Whether the unordered name pair `{a, b}` is the unordered pair `{p, q}`. -/
def samePairB (a b p q : String) : Bool :=
  (a == p && b == q) || (a == q && b == p)

lemma length_blockAux (book : Nat → String × List Move) :
    ∀ (n s : Nat) (r : MatchRecord), (blockAux book n s r).length = n := by
  intro n
  induction n with
  | zero => intro s r; rfl
  | succ m ih => intro s r; simp [blockAux, ih]

lemma mem_blockAux (book : Nat → String × List Move) :
    ∀ (n s : Nat) (r x : MatchRecord), x ∈ blockAux book n s r →
      x.round = r.round ∧ x.pairId = r.pairId ∧ x.state = r.state
      ∧ x.resultType = r.resultType
      ∧ ((x.playerW = r.playerW ∧ x.playerB = r.playerB)
         ∨ (x.playerW = r.playerB ∧ x.playerB = r.playerW)) := by
  intro n
  induction n with
  | zero => intro s r x hx; simp [blockAux] at hx
  | succ m ih =>
    intro s r x hx
    rcases List.mem_cons.1 hx with rfl | hx2
    · exact ⟨rfl, rfl, rfl, rfl, Or.inl ⟨rfl, rfl⟩⟩
    · have h := ih (s + 1) r.swapPlayers x hx2
      unfold MatchRecord.swapPlayers at h
      simp only at h
      tauto

lemma chain_blockAux (book : Nat → String × List Move) :
    ∀ (n s : Nat) (r : MatchRecord),
      List.Chain' (fun r1 r2 => r2.playerW = r1.playerB ∧ r2.playerB = r1.playerW)
        (blockAux book n s r) := by
  intro n
  induction n with
  | zero => intro s r; simp [blockAux]
  | succ m ih =>
    intro s r
    rw [blockAux]
    refine List.chain'_cons'.2 ⟨?_, ih (s + 1) r.swapPlayers⟩
    intro y hy
    rcases m with _ | m2
    · simp [blockAux] at hy
    · rw [blockAux] at hy
      simp only [List.head?_cons, Option.mem_def, Option.some.injEq] at hy
      subst hy
      exact ⟨rfl, rfl⟩

lemma pairPred_swapPlayers (p q : String) (r : MatchRecord) :
    pairPred p q r.swapPlayers = pairPred p q r := by
  unfold pairPred MatchRecord.swapPlayers
  simp only []
  rw [Bool.or_comm, Bool.and_comm (r.playerB == p), Bool.and_comm (r.playerB == q)]

lemma blockAux_filter (book : Nat → String × List Move) (p q : String) :
    ∀ (n s : Nat) (r : MatchRecord),
      (blockAux book n s r).filter (pairPred p q)
        = if pairPred p q r then blockAux book n s r else [] := by
  intro n
  induction n with
  | zero => intro s r; simp [blockAux]
  | succ m ih =>
    intro s r
    rw [blockAux, List.filter_cons]
    have hhead : pairPred p q
        { r with gameIdx := Int.ofNat s, startFen := (book s).1,
                 startMoves := (book s).2 } = pairPred p q r := by
      unfold pairPred
      rfl
    rw [hhead, ih (s + 1) r.swapPlayers, pairPred_swapPlayers]
    by_cases hp : pairPred p q r <;> simp [hp, blockAux]

lemma addMatchRecordLoop_eq (book : Nat → String × List Move) :
    ∀ (n : Nat) (acc : List MatchRecord) (r : MatchRecord),
      addMatchRecordLoop book n acc r = acc ++ blockAux book n acc.length r := by
  intro n
  induction n with
  | zero => intro acc r; simp [addMatchRecordLoop, blockAux]
  | succ m ih =>
    intro acc r
    rw [addMatchRecordLoop, ih, addMatchRecordSimple]
    simp [blockAux]

lemma addMatchRecord_eq (book : Nat → String × List Move) (pid : Int) (gpp : Nat)
    (acc : List MatchRecord) (r : MatchRecord) :
    addMatchRecord book pid gpp acc r
      = acc ++ blockAux book gpp acc.length { r with pairId := pid } := by
  unfold addMatchRecord
  exact addMatchRecordLoop_eq book gpp acc { r with pairId := pid }

lemma rrInner_eq (nameOk : String → Bool) (book : Nat → String × List Move)
    (randPid : Nat → Int) (randSwap : Nat → Bool) (gpp : Nat) (name0 : String) :
    ∀ (js : List String) (pidx : Nat) (acc : List MatchRecord),
      (∀ x ∈ js, nameOk x = true) →
      rrInner nameOk book randPid randSwap gpp name0 js pidx acc
        = (acc ++ rrInnerBlocks book randPid randSwap gpp name0 js pidx acc.length,
           pidx + js.length, false) := by
  intro js
  induction js with
  | nil => intro pidx acc _; simp [rrInner, rrInnerBlocks]
  | cons name1 rest ih =>
    intro pidx acc hall
    have h1 : nameOk name1 = true := hall name1 (List.mem_cons_self name1 rest)
    rw [rrInner, if_neg (by simp [h1])]
    rw [addMatchRecord_eq]
    rw [ih (pidx + 1) _ (fun x hx => hall x (List.mem_cons_of_mem name1 hx))]
    have hlen : (acc ++ blockAux book gpp acc.length
        { mkMatchRecord name0 name1 (randSwap pidx) with
          round := 1,
          pairId := randPid pidx }).length = acc.length + gpp := by
      simp [length_blockAux]
    rw [hlen]
    simp only [rrInnerBlocks, pairBase, List.append_assoc, List.length_cons]
    simp only [Prod.mk.injEq]
    refine ⟨?_, ?_, ?_⟩ <;> first | trivial | omega

lemma length_rrInnerBlocks (book : Nat → String × List Move)
    (randPid : Nat → Int) (randSwap : Nat → Bool) (gpp : Nat) (name0 : String) :
    ∀ (js : List String) (pidx s : Nat),
      (rrInnerBlocks book randPid randSwap gpp name0 js pidx s).length
        = gpp * js.length := by
  intro js
  induction js with
  | nil => intro pidx s; simp [rrInnerBlocks]
  | cons name1 rest ih =>
    intro pidx s
    rw [rrInnerBlocks]
    rw [List.length_append, length_blockAux, ih (pidx + 1) (s + gpp)]
    simp [Nat.mul_succ, Nat.add_comm]

lemma rrOuter_eq (nameOk : String → Bool) (book : Nat → String × List Move)
    (randPid : Nat → Int) (randSwap : Nat → Bool) (gpp : Nat) :
    ∀ (names : List String) (pidx : Nat) (acc : List MatchRecord),
      (∀ x ∈ names, nameOk x = true) →
      rrOuter nameOk book randPid randSwap gpp names pidx acc
        = (acc ++ rrOuterBlocks book randPid randSwap gpp names pidx acc.length,
           pidx + pairCount names, false) := by
  intro names
  induction names with
  | nil => intro pidx acc _; simp [rrOuter, rrOuterBlocks, pairCount]
  | cons name0 rest ih =>
    intro pidx acc hall
    rcases rest with _ | ⟨name1, rest2⟩
    · simp [rrOuter, rrOuterBlocks, pairCount]
    · have h0 : nameOk name0 = true := hall name0 (List.mem_cons_self _ _)
      have hrest : ∀ x ∈ name1 :: rest2, nameOk x = true :=
        fun x hx => hall x (List.mem_cons_of_mem name0 hx)
      rw [rrOuter, if_neg (by simp [h0])]
      rw [rrInner_eq nameOk book randPid randSwap gpp name0 (name1 :: rest2) pidx acc hrest]
      simp only []
      rw [ih (pidx + (name1 :: rest2).length) _ hrest]
      have hlen : (acc ++ rrInnerBlocks book randPid randSwap gpp name0
          (name1 :: rest2) pidx acc.length).length
          = acc.length + gpp * (name1 :: rest2).length := by
        rw [List.length_append, length_rrInnerBlocks]
      rw [hlen]
      rw [show rrOuterBlocks book randPid randSwap gpp (name0 :: name1 :: rest2) pidx acc.length
          = rrInnerBlocks book randPid randSwap gpp name0 (name1 :: rest2) pidx acc.length
            ++ rrOuterBlocks book randPid randSwap gpp (name1 :: rest2)
                (pidx + (name1 :: rest2).length) (acc.length + gpp * (name1 :: rest2).length)
        from by rw [rrOuterBlocks]]
      rw [show pairCount (name0 :: name1 :: rest2)
          = (name1 :: rest2).length + pairCount (name1 :: rest2) from by rw [pairCount]]
      simp only [Prod.mk.injEq]
      refine ⟨?_, ?_, ?_⟩ <;> first | trivial | omega | simp [List.append_assoc]

lemma round_rrInnerBlocks (book : Nat → String × List Move)
    (randPid : Nat → Int) (randSwap : Nat → Bool) (gpp : Nat) (name0 : String) :
    ∀ (js : List String) (pidx s : Nat) (x : MatchRecord),
      x ∈ rrInnerBlocks book randPid randSwap gpp name0 js pidx s → x.round = 1 := by
  intro js
  induction js with
  | nil => intro pidx s x hx; simp [rrInnerBlocks] at hx
  | cons name1 rest ih =>
    intro pidx s x hx
    rw [rrInnerBlocks] at hx
    rcases List.mem_append.1 hx with hx2 | hx2
    · have h := (mem_blockAux book gpp s _ x hx2).1
      rw [h]
      rfl
    · exact ih (pidx + 1) (s + gpp) x hx2

lemma round_rrOuterBlocks (book : Nat → String × List Move)
    (randPid : Nat → Int) (randSwap : Nat → Bool) (gpp : Nat) :
    ∀ (names : List String) (pidx s : Nat) (x : MatchRecord),
      x ∈ rrOuterBlocks book randPid randSwap gpp names pidx s → x.round = 1 := by
  intro names
  induction names with
  | nil => intro pidx s x hx; simp [rrOuterBlocks] at hx
  | cons name0 rest ih =>
    intro pidx s x hx
    rcases rest with _ | ⟨name1, rest2⟩
    · simp [rrOuterBlocks] at hx
    · rw [rrOuterBlocks] at hx
      rcases List.mem_append.1 hx with hx2 | hx2
      · exact round_rrInnerBlocks book randPid randSwap gpp name0 _ pidx s x hx2
      · exact ih _ _ x hx2

lemma length_rrOuterBlocks (book : Nat → String × List Move)
    (randPid : Nat → Int) (randSwap : Nat → Bool) (gpp : Nat) :
    ∀ (names : List String) (pidx s : Nat),
      (rrOuterBlocks book randPid randSwap gpp names pidx s).length
        = gpp * pairCount names := by
  intro names
  induction names with
  | nil => intro pidx s; simp [rrOuterBlocks, pairCount]
  | cons name0 rest ih =>
    intro pidx s
    rcases rest with _ | ⟨name1, rest2⟩
    · simp [rrOuterBlocks, pairCount]
    · rw [rrOuterBlocks, List.length_append, length_rrInnerBlocks, ih]
      rw [show pairCount (name0 :: name1 :: rest2)
          = (name1 :: rest2).length + pairCount (name1 :: rest2) from by rw [pairCount]]
      ring

lemma pairCount_sq : ∀ (names : List String),
    2 * pairCount names + names.length = names.length * names.length := by
  intro names
  induction names with
  | nil => rfl
  | cons a rest ih =>
    simp only [pairCount, List.length_cons]
    have hring : (rest.length + 1) * (rest.length + 1)
        = rest.length * rest.length + 2 * rest.length + 1 := by ring
    linarith [ih, hring]

lemma pairPred_pairBase (p q name0 name1 : String) (randPid : Nat → Int)
    (randSwap : Nat → Bool) (pidx : Nat) :
    pairPred p q (pairBase randPid randSwap name0 name1 pidx)
      = samePairB name0 name1 p q := by
  unfold pairBase mkMatchRecord
  rcases h : randSwap pidx <;>
    simp [h, pairPred, samePairB, Bool.or_comm, Bool.and_comm]

lemma samePairB_mem (a b p q : String) (h : samePairB a b p q = true) :
    (a = p ∧ b = q) ∨ (a = q ∧ b = p) := by
  unfold samePairB at h
  rcases Bool.or_eq_true_iff.1 h with h2 | h2 <;>
    rcases Bool.and_eq_true_iff.1 h2 with ⟨hx, hy⟩
  · exact Or.inl ⟨by simpa using hx, by simpa using hy⟩
  · exact Or.inr ⟨by simpa using hx, by simpa using hy⟩

lemma rrInnerBlocks_filter_nil (book : Nat → String × List Move)
    (randPid : Nat → Int) (randSwap : Nat → Bool) (gpp : Nat)
    (p q name0 : String) :
    ∀ (js : List String) (pidx s : Nat),
      (∀ n1 ∈ js, samePairB name0 n1 p q = false) →
      (rrInnerBlocks book randPid randSwap gpp name0 js pidx s).filter (pairPred p q)
        = [] := by
  intro js
  induction js with
  | nil => intro pidx s _; rfl
  | cons name1 rest ih =>
    intro pidx s hno
    rw [rrInnerBlocks, List.filter_append, blockAux_filter, pairPred_pairBase]
    rw [hno name1 (List.mem_cons_self _ _)]
    simp only [Bool.false_eq_true, reduceIte, List.nil_append]
    exact ih (pidx + 1) (s + gpp) (fun n hn => hno n (List.mem_cons_of_mem name1 hn))

lemma rrInnerBlocks_filter_found (book : Nat → String × List Move)
    (randPid : Nat → Int) (randSwap : Nat → Bool) (gpp : Nat)
    (p q name0 : String) :
    ∀ (js : List String) (pidx s : Nat), js.Nodup →
      (∃ n1 ∈ js, samePairB name0 n1 p q = true) →
      ∃ (s0 : Nat) (base : MatchRecord),
        (rrInnerBlocks book randPid randSwap gpp name0 js pidx s).filter (pairPred p q)
          = blockAux book gpp s0 base
        ∧ pairPred p q base = true ∧ base.round = 1 := by
  intro js
  induction js with
  | nil =>
    intro pidx s _ hex
    simp at hex
  | cons name1 rest ih =>
    intro pidx s hnd hex
    rw [rrInnerBlocks, List.filter_append, blockAux_filter, pairPred_pairBase]
    by_cases hh : samePairB name0 name1 p q = true
    · have hrest : (rrInnerBlocks book randPid randSwap gpp name0 rest (pidx + 1)
          (s + gpp)).filter (pairPred p q) = [] := by
        refine rrInnerBlocks_filter_nil book randPid randSwap gpp p q name0 rest
          (pidx + 1) (s + gpp) ?_
        intro n2 hn2
        by_contra hcon
        have hn2t : samePairB name0 n2 p q = true := by
          rcases hcase : samePairB name0 n2 p q
          · exact absurd hcase hcon
          · rfl
        have he1 := samePairB_mem _ _ _ _ hh
        have he2 := samePairB_mem _ _ _ _ hn2t
        have hn2eq : n2 = name1 := by
          rcases he1 with ⟨h1a, h1b⟩ | ⟨h1a, h1b⟩ <;>
            rcases he2 with ⟨h2a, h2b⟩ | ⟨h2a, h2b⟩ <;> simp_all
        rw [hn2eq] at hn2
        exact (List.nodup_cons.1 hnd).1 hn2
      rw [hh, hrest]
      refine ⟨s, pairBase randPid randSwap name0 name1 pidx, by simp, ?_, rfl⟩
      rw [pairPred_pairBase]
      exact hh
    · have hh2 : samePairB name0 name1 p q = false := by
        rcases hcase : samePairB name0 name1 p q
        · rfl
        · exact absurd hcase hh
      rw [hh2]
      simp only [Bool.false_eq_true, reduceIte, List.nil_append]
      refine ih (pidx + 1) (s + gpp) (List.nodup_cons.1 hnd).2 ?_
      rcases hex with ⟨n1, hn1, hmt⟩
      rcases List.mem_cons.1 hn1 with rfl | hn1r
      · exact absurd hmt hh
      · exact ⟨n1, hn1r, hmt⟩

lemma rrOuterBlocks_filter_nil (book : Nat → String × List Move)
    (randPid : Nat → Int) (randSwap : Nat → Bool) (gpp : Nat) (p q : String) :
    ∀ (names : List String) (pidx s : Nat), (p ∉ names ∨ q ∉ names) →
      (rrOuterBlocks book randPid randSwap gpp names pidx s).filter (pairPred p q)
        = [] := by
  intro names
  induction names with
  | nil => intro pidx s _; rfl
  | cons name0 rest ih =>
    intro pidx s hout
    rcases rest with _ | ⟨name1, rest2⟩
    · rfl
    · rw [rrOuterBlocks, List.filter_append]
      have hinner : (rrInnerBlocks book randPid randSwap gpp name0 (name1 :: rest2)
          pidx s).filter (pairPred p q) = [] := by
        refine rrInnerBlocks_filter_nil book randPid randSwap gpp p q name0 _ pidx s ?_
        intro n1 hn1
        by_contra hcon
        have hm : samePairB name0 n1 p q = true := by
          rcases hcase : samePairB name0 n1 p q
          · exact absurd hcase hcon
          · rfl
        rcases samePairB_mem _ _ _ _ hm with ⟨ha, hb⟩ | ⟨ha, hb⟩ <;>
          rcases hout with hout | hout
        · exact hout (ha ▸ List.mem_cons_self _ _)
        · exact hout (hb ▸ List.mem_cons_of_mem name0 hn1)
        · exact hout (hb ▸ List.mem_cons_of_mem name0 hn1)
        · exact hout (ha ▸ List.mem_cons_self _ _)
      have houter : (rrOuterBlocks book randPid randSwap gpp (name1 :: rest2)
          (pidx + (name1 :: rest2).length)
          (s + gpp * (name1 :: rest2).length)).filter (pairPred p q) = [] := by
        refine ih _ _ ?_
        rcases hout with hout | hout
        · exact Or.inl (fun hmem => hout (List.mem_cons_of_mem name0 hmem))
        · exact Or.inr (fun hmem => hout (List.mem_cons_of_mem name0 hmem))
      rw [hinner, houter]
      rfl

lemma rrOuterBlocks_filter_found (book : Nat → String × List Move)
    (randPid : Nat → Int) (randSwap : Nat → Bool) (gpp : Nat) (p q : String) :
    ∀ (names : List String) (pidx s : Nat), names.Nodup →
      p ∈ names → q ∈ names → p ≠ q →
      ∃ (s0 : Nat) (base : MatchRecord),
        (rrOuterBlocks book randPid randSwap gpp names pidx s).filter (pairPred p q)
          = blockAux book gpp s0 base
        ∧ pairPred p q base = true ∧ base.round = 1 := by
  intro names
  induction names with
  | nil => intro pidx s _ hp _ _; simp at hp
  | cons name0 rest ih =>
    intro pidx s hnd hp hq hpq
    rcases rest with _ | ⟨name1, rest2⟩
    · rcases List.mem_cons.1 hp with rfl | hp2
      · rcases List.mem_cons.1 hq with rfl | hq2
        · exact absurd rfl hpq
        · simp at hq2
      · simp at hp2
    · rw [rrOuterBlocks, List.filter_append]
      have hndrest : (name1 :: rest2).Nodup := (List.nodup_cons.1 hnd).2
      have hn0rest : name0 ∉ name1 :: rest2 := (List.nodup_cons.1 hnd).1
      by_cases hp0 : name0 = p
      · have hqrest : q ∈ name1 :: rest2 := by
          rcases List.mem_cons.1 hq with rfl | hq2
          · exact absurd hp0.symm hpq
          · exact hq2
        rcases rrInnerBlocks_filter_found book randPid randSwap gpp p q name0
            (name1 :: rest2) pidx s hndrest
            ⟨q, hqrest, by simp [samePairB, hp0]⟩ with ⟨s0, base, heq, hpb, hrb⟩
        have houter : (rrOuterBlocks book randPid randSwap gpp (name1 :: rest2)
            (pidx + (name1 :: rest2).length)
            (s + gpp * (name1 :: rest2).length)).filter (pairPred p q) = [] := by
          refine rrOuterBlocks_filter_nil book randPid randSwap gpp p q _ _ _ ?_
          exact Or.inl (hp0 ▸ hn0rest)
        rw [heq, houter, List.append_nil]
        exact ⟨s0, base, rfl, hpb, hrb⟩
      · by_cases hq0 : name0 = q
        · have hprest : p ∈ name1 :: rest2 := by
            rcases List.mem_cons.1 hp with rfl | hp2
            · exact absurd hq0 (by simpa using hp0)
            · exact hp2
          rcases rrInnerBlocks_filter_found book randPid randSwap gpp p q name0
              (name1 :: rest2) pidx s hndrest
              ⟨p, hprest, by simp [samePairB, hq0]⟩ with ⟨s0, base, heq, hpb, hrb⟩
          have houter : (rrOuterBlocks book randPid randSwap gpp (name1 :: rest2)
              (pidx + (name1 :: rest2).length)
              (s + gpp * (name1 :: rest2).length)).filter (pairPred p q) = [] := by
            refine rrOuterBlocks_filter_nil book randPid randSwap gpp p q _ _ _ ?_
            exact Or.inr (hq0 ▸ hn0rest)
          rw [heq, houter, List.append_nil]
          exact ⟨s0, base, rfl, hpb, hrb⟩
        · have hinner : (rrInnerBlocks book randPid randSwap gpp name0 (name1 :: rest2)
              pidx s).filter (pairPred p q) = [] := by
            refine rrInnerBlocks_filter_nil book randPid randSwap gpp p q name0 _ pidx s ?_
            intro n1 hn1
            rcases hcase : samePairB name0 n1 p q
            · rfl
            · rcases samePairB_mem _ _ _ _ hcase with ⟨ha, _⟩ | ⟨ha, _⟩
              · exact absurd ha hp0
              · exact absurd ha hq0
          have hprest : p ∈ name1 :: rest2 := by
            rcases List.mem_cons.1 hp with rfl | hp2
            · exact absurd rfl hp0
            · exact hp2
          have hqrest : q ∈ name1 :: rest2 := by
            rcases List.mem_cons.1 hq with rfl | hq2
            · exact absurd rfl hq0
            · exact hq2
          rcases ih (pidx + (name1 :: rest2).length) (s + gpp * (name1 :: rest2).length)
              hndrest hprest hqrest hpq with ⟨s0, base, heq, hpb, hrb⟩
          rw [hinner, heq]
          exact ⟨s0, base, rfl, hpb, hrb⟩

/-- C6: for every successfully created round-robin schedule over `names`
(all names configured, no duplicates): every record has `round = 1`; the
total record count is `n·(n-1)/2 · games_per_pair` (stated doubled to stay in
ℕ, plus the `games_per_pair = 1` form of the claim); and for every unordered
pair of distinct participants, the schedule holds exactly `games_per_pair`
records of that pair, all sharing one `pairId`, with colours swapped from
each record to the next. -/
theorem createMatchList_roundrobin_spec (nameOk : String → Bool)
    (book : Nat → String × List Move) (randPid : Nat → Int)
    (randSwap : Nat → Bool) (gpp : Nat) (names : List String)
    (schedule : List MatchRecord)
    (hok : ∀ x ∈ names, nameOk x = true)
    (hnd : names.Nodup)
    (hsched : createMatchListRR nameOk book randPid randSwap gpp names
      = some schedule) :
    (∀ x ∈ schedule, x.round = 1)
    ∧ 2 * schedule.length = names.length * (names.length - 1) * gpp
    ∧ (gpp = 1 → schedule.length = names.length * (names.length - 1) / 2)
    ∧ ∀ p q, p ∈ names → q ∈ names → p ≠ q →
        (schedule.filter (pairPred p q)).length = gpp
        ∧ (∀ x ∈ schedule.filter (pairPred p q),
            ∀ y ∈ schedule.filter (pairPred p q), x.pairId = y.pairId)
        ∧ List.Chain' (fun r1 r2 => r2.playerW = r1.playerB ∧ r2.playerB = r1.playerW)
            (schedule.filter (pairPred p q)) := by
  have hlen2 : ¬ names.length < 2 := by
    by_contra hcon
    unfold createMatchListRR at hsched
    rw [if_pos hcon] at hsched
    exact Option.noConfusion hsched
  have hout := rrOuter_eq nameOk book randPid randSwap gpp names 0 [] hok
  have hsched2 : schedule = rrOuterBlocks book randPid randSwap gpp names 0 0 := by
    unfold createMatchListRR at hsched
    rw [if_neg hlen2, hout] at hsched
    simpa using hsched.symm
  subst hsched2
  refine ⟨?_, ?_, ?_, ?_⟩
  · intro x hx
    exact round_rrOuterBlocks book randPid randSwap gpp names 0 0 x hx
  · rw [length_rrOuterBlocks]
    have hpc := pairCount_sq names
    have h1 : 2 * pairCount names = names.length * (names.length - 1) := by
      rcases hn : names.length with _ | k
      · simp [hn] at hpc
        simp [hpc]
      · have hring : (k + 1) * (k + 1) = (k + 1) * k + (k + 1) := by ring
        rw [hn] at hpc
        simp only [Nat.succ_sub_one]
        linarith [hpc, hring]
    calc 2 * (gpp * pairCount names) = gpp * (2 * pairCount names) := by ring
      _ = gpp * (names.length * (names.length - 1)) := by rw [h1]
      _ = names.length * (names.length - 1) * gpp := by ring
  · intro hgpp
    rw [length_rrOuterBlocks]
    have hpc := pairCount_sq names
    rcases hn : names.length with _ | k
    · simp [hn] at hpc
      simp [hpc, hgpp]
    · rw [hn] at hpc
      have hring : (k + 1) * (k + 1) = (k + 1) * k + (k + 1) := by ring
      have h1 : 2 * pairCount names = (k + 1) * k := by linarith [hpc, hring]
      simp only [Nat.succ_sub_one, hgpp, Nat.mul_one]
      omega
  · intro p q hp hq hpq
    rcases rrOuterBlocks_filter_found book randPid randSwap gpp p q names 0 0
        hnd hp hq hpq with ⟨s0, base, heq, _, _⟩
    rw [heq]
    refine ⟨length_blockAux book gpp s0 base, ?_, chain_blockAux book gpp s0 base⟩
    intro x hx y hy
    have hxm := (mem_blockAux book gpp s0 base x hx).2.1
    have hym := (mem_blockAux book gpp s0 base y hy).2.1
    rw [hxm, hym]

/-- The single record that the round-robin schedule for `["A", "B"]` with
one game per pair and constant oracles consists of. -/
def rrDemoRecord : MatchRecord :=
  { playerW := "A", playerB := "B", startFen := "", startMoves := [],
    resultType := ResultType.noresult, state := MatchState.none,
    gameIdx := 0, round := 1, pairId := 0 }

/-- Witness for C6 on the two-player round-robin with one game per pair:
the created schedule holds exactly one record of the pair `{A, B}`. -/
theorem createMatchList_roundrobin_spec_witness :
    (([rrDemoRecord] : List MatchRecord).filter (pairPred "A" "B")).length = 1 :=
  ((createMatchList_roundrobin_spec (fun _ => true) (fun _ => ("", []))
      (fun _ => 0) (fun _ => false) 1 ["A", "B"] [rrDemoRecord]
      (by decide) (by decide) (by decide)).2.2.2 "A" "B"
    (by decide) (by decide) (by decide)).1

end Banksia
